import Mathlib

/-
  Verification of the stock-reconciliation core of the
  alternative-glop-to-holded repository.

  Text is modelled as a list of Unicode code points (`List Nat`).
  The browser front-end scripts under src/ are embedded directly from the
  JavaScript source; the backend pipeline components (Name Normalizer,
  Warehouse Resolver, Product Matcher, Stock Delta Calculator, CSV
  Reconciliation Pipeline, Inventory Update Applier) are not part of the
  repository sources provided, so they are modelled from the design
  specification, as marked on each definition.
-/

namespace StockRecon

/-- Whitespace code points: space, tab, newline, carriage return. -/
def isWsCode (n : Nat) : Bool :=
  n == 32 || n == 9 || n == 10 || n == 13

/-- Diacritic-removal table: accented Latin letters (both cases) mapped to
plain lowercase ASCII letters; part of the Name Normalizer model. -/
def accentTable : List (Nat × Nat) :=
  [(0xC0, 97), (0xC1, 97), (0xC2, 97), (0xC4, 97),
   (0xC7, 99),
   (0xC8, 101), (0xC9, 101), (0xCA, 101), (0xCB, 101),
   (0xCC, 105), (0xCD, 105), (0xCE, 105), (0xCF, 105),
   (0xD1, 110),
   (0xD2, 111), (0xD3, 111), (0xD4, 111), (0xD6, 111),
   (0xD9, 117), (0xDA, 117), (0xDB, 117), (0xDC, 117),
   (0xE0, 97), (0xE1, 97), (0xE2, 97), (0xE4, 97),
   (0xE7, 99),
   (0xE8, 101), (0xE9, 101), (0xEA, 101), (0xEB, 101),
   (0xEC, 105), (0xED, 105), (0xEE, 105), (0xEF, 105),
   (0xF1, 110),
   (0xF2, 111), (0xF3, 111), (0xF4, 111), (0xF6, 111),
   (0xF9, 117), (0xFA, 117), (0xFB, 117), (0xFC, 117)]

/-- Modelled from the spec: per-character folding of the Name Normalizer
(§4.1) — lower-case ASCII letters and strip diacritics. -/
def foldCode (n : Nat) : Nat :=
  if 65 ≤ n ∧ n ≤ 90 then n + 32
  else
    match accentTable.lookup n with
    | some m => m
    | none => n

/-- Modelled from the spec: split a text into maximal whitespace-free words
(accumulator holds the current word reversed). -/
def wordsAux : List Nat → List Nat → List (List Nat)
  | [], acc => if acc = [] then [] else [acc.reverse]
  | c :: cs, acc =>
    if isWsCode c then
      if acc = [] then wordsAux cs []
      else acc.reverse :: wordsAux cs []
    else wordsAux cs (c :: acc)

/-- The words of a text, in order, with all whitespace removed. -/
def textWords (l : List Nat) : List (List Nat) := wordsAux l []

/-- Join words with a single space (code point 32) between them. -/
def joinWords : List (List Nat) → List Nat
  | [] => []
  | [w] => w
  | w :: v :: ws => w ++ 32 :: joinWords (v :: ws)

/-- Modelled from the spec: the Name Normalizer (§4.1). Lower-cases, removes
diacritics, strips leading and trailing whitespace and collapses internal
whitespace runs to a single space. -/
def normalize (l : List Nat) : List Nat :=
  joinWords (textWords (l.map foldCode))

/-- Code points of a string, for stating concrete examples. -/
def toCodes (s : String) : List Nat := s.toList.map Char.toNat

/- ### Lemmas about the character folding -/

set_option maxRecDepth 4096

theorem accentTable_lookup_none {m : Nat} (h : m < 192) :
    accentTable.lookup m = none := by
  revert h
  revert m
  decide

theorem accentTable_values_lower :
    ∀ p ∈ accentTable, 97 ≤ p.2 ∧ p.2 ≤ 122 := by decide

theorem lookup_pair_mem {l : List (Nat × Nat)} {a b : Nat}
    (h : l.lookup a = some b) : (a, b) ∈ l := by
  induction l with
  | nil => simp [List.lookup] at h
  | cons p rest ih =>
    rw [List.lookup] at h
    cases hab : a == p.1 with
    | true =>
      rw [hab] at h
      have : p = (a, b) := by
        cases p
        simp only [Option.some.injEq] at h
        simp_all [beq_iff_eq]
      simp [this]
    | false =>
      rw [hab] at h
      exact List.mem_cons_of_mem _ (ih h)

theorem foldCode_fix_of_lower {m : Nat} (h1 : 97 ≤ m) (h2 : m ≤ 122) :
    foldCode m = m := by
  unfold foldCode
  rw [if_neg (by omega)]
  rw [accentTable_lookup_none (by omega)]

theorem foldCode_idem (n : Nat) : foldCode (foldCode n) = foldCode n := by
  by_cases h : 65 ≤ n ∧ n ≤ 90
  · have hn : foldCode n = n + 32 := by unfold foldCode; rw [if_pos h]
    rw [hn]
    exact foldCode_fix_of_lower (by omega) (by omega)
  · cases hl : accentTable.lookup n with
    | none =>
      have hn : foldCode n = n := by
        unfold foldCode; rw [if_neg h, hl]
      rw [hn, hn]
    | some m =>
      have hn : foldCode n = m := by
        unfold foldCode; rw [if_neg h, hl]
      have hm := accentTable_values_lower _ (lookup_pair_mem hl)
      rw [hn]
      exact foldCode_fix_of_lower hm.1 hm.2

/- ### Lemmas about word splitting and joining -/

theorem wordsAux_chunk (w : List Nat) :
    ∀ (l acc : List Nat), (∀ c ∈ w, isWsCode c = false) →
      wordsAux (w ++ l) acc = wordsAux l (w.reverse ++ acc) := by
  induction w with
  | nil => intro l acc _; simp
  | cons c cs ih =>
    intro l acc hw
    have hc : isWsCode c = false := hw c (by simp)
    rw [List.cons_append, wordsAux, if_neg (by simp [hc])]
    rw [ih l (c :: acc) (fun d hd => hw d (by simp [hd]))]
    simp

theorem words_joinWords :
    ∀ ws : List (List Nat),
      (∀ w ∈ ws, w ≠ [] ∧ ∀ c ∈ w, isWsCode c = false) →
      textWords (joinWords ws) = ws := by
  intro ws
  induction ws with
  | nil => intro _; rfl
  | cons w tail ih =>
    intro hws
    have hw := hws w (by simp)
    cases tail with
    | nil =>
      show textWords (joinWords [w]) = [w]
      rw [joinWords]
      unfold textWords
      rw [show w = w ++ [] by simp, wordsAux_chunk w [] [] hw.2]
      rw [wordsAux]
      rw [if_neg (by simp [hw.1])]
      simp
    | cons v vs =>
      show textWords (joinWords (w :: v :: vs)) = w :: v :: vs
      rw [joinWords]
      unfold textWords
      rw [wordsAux_chunk w (32 :: joinWords (v :: vs)) [] hw.2]
      rw [wordsAux, if_pos (by decide)]
      rw [if_neg (by simp [hw.1])]
      simp only [List.reverse_append, List.reverse_reverse, List.reverse_nil,
        List.nil_append, List.append_nil]
      rw [show wordsAux (joinWords (v :: vs)) [] = textWords (joinWords (v :: vs)) from rfl]
      rw [ih (fun u hu => hws u (by simp [hu]))]

theorem wordsAux_spec :
    ∀ (l acc : List Nat), (∀ c ∈ acc, isWsCode c = false) →
      ∀ w ∈ wordsAux l acc, w ≠ [] ∧ ∀ c ∈ w, isWsCode c = false := by
  intro l
  induction l with
  | nil =>
    intro acc hacc w hw
    rw [wordsAux] at hw
    by_cases h : acc = []
    · rw [if_pos h] at hw; simp at hw
    · rw [if_neg h] at hw
      simp only [List.mem_singleton] at hw
      subst hw
      refine ⟨by simpa using h, ?_⟩
      intro c hc
      exact hacc c (by simpa using hc)
  | cons c cs ih =>
    intro acc hacc w hw
    rw [wordsAux] at hw
    by_cases hws : isWsCode c
    · rw [if_pos hws] at hw
      by_cases h : acc = []
      · rw [if_pos h] at hw
        exact ih [] (by simp) w hw
      · rw [if_neg h] at hw
        rcases List.mem_cons.mp hw with hw1 | hw2
        · subst hw1
          refine ⟨by simpa using h, ?_⟩
          intro d hd
          exact hacc d (by simpa using hd)
        · exact ih [] (by simp) w hw2
    · rw [if_neg hws] at hw
      refine ih (c :: acc) ?_ w hw
      intro d hd
      rcases List.mem_cons.mp hd with hd1 | hd2
      · subst hd1; simpa using hws
      · exact hacc d hd2

theorem wordsAux_mem :
    ∀ (l acc : List Nat) (w : List Nat), w ∈ wordsAux l acc →
      ∀ c ∈ w, c ∈ l ∨ c ∈ acc := by
  intro l
  induction l with
  | nil =>
    intro acc w hw c hc
    rw [wordsAux] at hw
    by_cases h : acc = []
    · rw [if_pos h] at hw; simp at hw
    · rw [if_neg h] at hw
      simp only [List.mem_singleton] at hw
      subst hw
      right; simpa using hc
  | cons a cs ih =>
    intro acc w hw c hc
    rw [wordsAux] at hw
    by_cases hws : isWsCode a
    · rw [if_pos hws] at hw
      by_cases h : acc = []
      · rw [if_pos h] at hw
        rcases ih [] w hw c hc with h1 | h2
        · exact Or.inl (by simp [h1])
        · simp at h2
      · rw [if_neg h] at hw
        rcases List.mem_cons.mp hw with hw1 | hw2
        · subst hw1
          right; simpa using hc
        · rcases ih [] w hw2 c hc with h1 | h2
          · exact Or.inl (by simp [h1])
          · simp at h2
    · rw [if_neg hws] at hw
      rcases ih (a :: acc) w hw c hc with h1 | h2
      · exact Or.inl (by simp [h1])
      · rcases List.mem_cons.mp h2 with h3 | h4
        · exact Or.inl (by simp [h3])
        · exact Or.inr h4

theorem mem_joinWords :
    ∀ (ws : List (List Nat)) (c : Nat), c ∈ joinWords ws →
      c = 32 ∨ ∃ w ∈ ws, c ∈ w := by
  intro ws
  induction ws with
  | nil => intro c hc; simp [joinWords] at hc
  | cons w tail ih =>
    intro c hc
    cases tail with
    | nil =>
      rw [joinWords] at hc
      exact Or.inr ⟨w, by simp, hc⟩
    | cons v vs =>
      rw [joinWords] at hc
      rcases List.mem_append.mp hc with h1 | h2
      · exact Or.inr ⟨w, by simp, h1⟩
      · rcases List.mem_cons.mp h2 with h3 | h4
        · exact Or.inl h3
        · rcases ih c h4 with h5 | ⟨u, hu, hcu⟩
          · exact Or.inl h5
          · exact Or.inr ⟨u, by simp [hu], hcu⟩

theorem map_fix {f : Nat → Nat} :
    ∀ l : List Nat, (∀ c ∈ l, f c = c) → l.map f = l := by
  intro l
  induction l with
  | nil => intro _; rfl
  | cons c cs ih =>
    intro h
    rw [List.map_cons, h c (by simp), ih (fun d hd => h d (by simp [hd]))]

theorem map_foldCode_normalize (l : List Nat) :
    (normalize l).map foldCode = normalize l := by
  apply map_fix
  intro c hc
  rcases mem_joinWords _ c hc with h32 | ⟨w, hw, hcw⟩
  · subst h32; decide
  · have hcl := wordsAux_mem _ [] w hw c hcw
    rcases hcl with hmem | habs
    · rcases List.mem_map.mp hmem with ⟨y, _, hy⟩
      rw [← hy]
      exact foldCode_idem y
    · simp at habs

/- ### Warehouse Resolver (spec §4.2) -/

/-- A warehouse reference: identifier and display name. -/
structure WarehouseRef where
  whId : List Nat
  whName : List Nat
deriving DecidableEq

/-- Modelled from the spec: the Warehouse Resolver (§4.2). Applies the
Normalizer, then looks the key up in the configured alias table; `none`
is the Unresolved outcome. -/
def resolve (table : List (List Nat × WarehouseRef)) (name : List Nat) :
    Option WarehouseRef :=
  table.lookup (normalize name)

/- ### Numeric cell parsing (spec §4.5, numeric semantics) -/

/-- Locale normalization of a code point: comma (44) becomes dot (46),
mirroring the replace of commas by dots in the source isNumeric helper. -/
def commaToDot (n : Nat) : Nat := if n = 44 then 46 else n

/-- Strip leading and trailing whitespace code points. -/
def trimCodes (l : List Nat) : List Nat :=
  ((l.dropWhile isWsCode).reverse.dropWhile isWsCode).reverse

/-- Value of a digit string (48..57); `none` on any non-digit. The empty
list yields 0 so that forms such as a bare fractional part parse. -/
def digitsVal (l : List Nat) : Option Nat :=
  l.foldl
    (fun acc d =>
      match acc with
      | none => none
      | some v => if 48 ≤ d ∧ d ≤ 57 then some (v * 10 + (d - 48)) else none)
    (some 0)

/-- Modelled from the spec: parse an already comma-normalized decimal
numeral (optional leading minus, digits, at most one dot). -/
def parseCore (s : List Nat) : Option ℚ :=
  let signed : Bool × List Nat :=
    match s with
    | 45 :: rest => (true, rest)
    | _ => (false, s)
  let body := signed.2
  let val : Option ℚ :=
    match body.splitOn 46 with
    | [ip] =>
      if ip = [] then none
      else (digitsVal ip).map (fun n => (n : ℚ))
    | [ip, fp] =>
      if ip = [] ∧ fp = [] then none
      else
        match digitsVal ip, digitsVal fp with
        | some i, some f => some ((i : ℚ) + (f : ℚ) / (((10 ^ fp.length : Nat)) : ℚ))
        | _, _ => none
    | _ => none
  val.map (fun q => if signed.1 then -q else q)

/-- Modelled from the spec: locale-tolerant parse of a units_sold cell —
trim, normalize commas to dots, then parse as a decimal numeral. -/
def parseUnits (raw : List Nat) : Option ℚ :=
  parseCore ((trimCodes raw).map commaToDot)

theorem commaToDot_idem (n : Nat) : commaToDot (commaToDot n) = commaToDot n := by
  unfold commaToDot
  by_cases h : n = 44
  · simp [h]
  · simp [h]

theorem isWsCode_commaToDot (n : Nat) : isWsCode (commaToDot n) = isWsCode n := by
  unfold commaToDot
  by_cases h : n = 44
  · subst h; decide
  · simp [h]

theorem dropWhile_ws_map_commaToDot :
    ∀ l : List Nat,
      (l.map commaToDot).dropWhile isWsCode = (l.dropWhile isWsCode).map commaToDot := by
  intro l
  induction l with
  | nil => rfl
  | cons c cs ih =>
    rw [List.map_cons, List.dropWhile_cons, List.dropWhile_cons,
      isWsCode_commaToDot]
    by_cases h : isWsCode c
    · simp [h, ih]
    · simp [h]

theorem trimCodes_map_commaToDot (l : List Nat) :
    trimCodes (l.map commaToDot) = (trimCodes l).map commaToDot := by
  unfold trimCodes
  rw [dropWhile_ws_map_commaToDot, ← List.map_reverse,
    dropWhile_ws_map_commaToDot, ← List.map_reverse]

theorem map_commaToDot_idem (l : List Nat) :
    (l.map commaToDot).map commaToDot = l.map commaToDot := by
  rw [List.map_map]
  exact List.map_congr_left (fun a _ => commaToDot_idem a)

/- ### Data model of the pipeline (spec §3) -/

/-- A product (or variant) reference resolved from the catalog snapshot. -/
structure ProductRef where
  productId : List Nat
  productName : List Nat
  isVariant : Bool
  variantId : Option (List Nat)
deriving DecidableEq

/-- Per-row error taxonomy (spec §7). -/
inductive ErrorKind
  | WarehouseNotFound
  | SkuNotFound
  | InvalidQuantity
  | ApplyFailed
deriving DecidableEq

/-- Status of a stock update record. -/
inductive Status
  | simulated
  | applied
  | failed
deriving DecidableEq

/-- Per-row error entry, as reported in the errors sequence. -/
structure RowError where
  row : Nat
  sku : List Nat
  product : List Nat
  terminal : List Nat
  units : Option ℚ
  error : ErrorKind
deriving DecidableEq

/-- A stock update record produced for a successfully matched row; the id
fields carry what the Applier needs to scope its write call. -/
structure StockUpdateRecord where
  row : Nat
  sku : List Nat
  productName : List Nat
  productId : List Nat
  variantId : Option (List Nat)
  warehouseId : List Nat
  warehouseName : List Nat
  unitsSold : ℚ
  currentStock : ℚ
  adjustment : ℚ
  newStock : ℚ
  status : Status
deriving DecidableEq

/-- One parsed sales row (spec §3 SalesRow), cells as raw text. -/
structure SalesRow where
  terminal : List Nat
  sku : List Nat
  unitsRaw : List Nat
  productLabel : List Nat
deriving DecidableEq

/-- Snapshot context for one pipeline run: alias table, catalog indexed by
SKU/barcode, and the external stock snapshot (product-or-variant id and
warehouse id to current stock). -/
structure Ctx where
  aliases : List (List Nat × WarehouseRef)
  catalog : List (List Nat × ProductRef)
  stock : List Nat → List Nat → ℚ

/-- The aggregated result of one pipeline run (spec §3). -/
structure ReconciliationResult where
  processed : Nat
  updated : Nat
  updates : List StockUpdateRecord
  errors : List RowError
deriving DecidableEq

/-- Build the RowError for a row, keeping the parsed units when the cell
parses. -/
def rowErr (i : Nat) (r : SalesRow) (k : ErrorKind) : RowError :=
  ⟨i, r.sku, r.productLabel, r.terminal, parseUnits r.unitsRaw, k⟩

/-- The external stock key of a matched product: the variant id when the
match is a variant, otherwise the product id. -/
def stockKey (p : ProductRef) : List Nat := p.variantId.getD p.productId

/-- Modelled from the spec: one row of the reconciliation loop (§4.5 step 4)
— resolve warehouse, match product, parse quantity, compute delta; every
failure is returned as data, never thrown. -/
def stepRow (ctx : Ctx) (i : Nat) (r : SalesRow) :
    Sum RowError StockUpdateRecord :=
  match resolve ctx.aliases r.terminal with
  | none => .inl (rowErr i r .WarehouseNotFound)
  | some wh =>
    match ctx.catalog.lookup r.sku with
    | none => .inl (rowErr i r .SkuNotFound)
    | some p =>
      match parseUnits r.unitsRaw with
      | none => .inl (rowErr i r .InvalidQuantity)
      | some units =>
        let cur := ctx.stock (stockKey p) wh.whId
        .inr ⟨i, r.sku, p.productName, p.productId, p.variantId,
              wh.whId, wh.whName, units, cur, -units, cur + -units,
              .simulated⟩

/-- Blank-row test (spec §4.5 step 3): empty identifier or empty terminal. -/
def skipRow (r : SalesRow) : Bool := r.sku.isEmpty || r.terminal.isEmpty

/-- Modelled from the spec: the row loop of the CSV Reconciliation Pipeline
(§4.5) — skip blank rows, accumulate updates and errors independently,
preserving file order. -/
def processRows (ctx : Ctx) : List (Nat × SalesRow) → ReconciliationResult
  | [] => ⟨0, 0, [], []⟩
  | (i, r) :: rest =>
    let res := processRows ctx rest
    if skipRow r then res
    else
      match stepRow ctx i r with
      | .inl e => ⟨res.processed + 1, res.updated, res.updates, e :: res.errors⟩
      | .inr u => ⟨res.processed + 1, res.updated + 1, u :: res.updates, res.errors⟩

/-- The only run-level failure (spec §7). -/
inductive RunFailure
  | UpstreamUnavailable
deriving DecidableEq

/-- Modelled from the spec: a whole reconciliation run — fetching either
snapshot may fail, which is the single condition failing the run; rows get
their file position attached before the loop. -/
def runRecon (catSnap : Option (List (List Nat × ProductRef)))
    (whSnap : Option (List (List Nat × WarehouseRef)))
    (stock : List Nat → List Nat → ℚ) (rows : List SalesRow) :
    Except RunFailure ReconciliationResult :=
  match catSnap, whSnap with
  | some cat, some wh => .ok (processRows ⟨wh, cat, stock⟩ rows.enum)
  | _, _ => .error .UpstreamUnavailable

/- ### Inventory Update Applier (spec §4.6) -/

/-- One stock-adjustment write call against the external inventory API. -/
structure WriteCall where
  productId : List Nat
  variantId : Option (List Nat)
  warehouseId : List Nat
  adjustment : ℚ
deriving DecidableEq

/-- The write call an update record would issue. -/
def mkWriteCall (u : StockUpdateRecord) : WriteCall :=
  ⟨u.productId, u.variantId, u.warehouseId, u.adjustment⟩

/-- The error-equivalent entry of a record whose write failed. -/
def applyFailedErr (u : StockUpdateRecord) : RowError :=
  ⟨u.row, u.sku, u.productName, u.warehouseName, some u.unitsSold, .ApplyFailed⟩

/-- Modelled from the spec: the Inventory Update Applier (§4.6). Returns the
surviving updates, the error-equivalent entries of failed writes, and the
write calls actually issued; with dry_run no call is issued and every
record is passed through untouched. -/
def applyUpdates (dryRun : Bool) (outcome : WriteCall → Bool) :
    List StockUpdateRecord →
      List StockUpdateRecord × List RowError × List WriteCall
  | [] => ([], [], [])
  | u :: rest =>
    let res := applyUpdates dryRun outcome rest
    if dryRun then (u :: res.1, res.2.1, res.2.2)
    else
      let c := mkWriteCall u
      if outcome c then
        ({ u with status := .applied } :: res.1, res.2.1, c :: res.2.2)
      else
        (res.1, applyFailedErr u :: res.2.1, c :: res.2.2)

/-- The external stock state after a sequence of issued write calls. -/
def stockAfter (calls : List WriteCall) (st : List Nat → List Nat → ℚ) :
    List Nat → List Nat → ℚ :=
  calls.foldl
    (fun s c => fun pk wk =>
      if pk = c.variantId.getD c.productId ∧ wk = c.warehouseId then
        s pk wk + c.adjustment
      else s pk wk)
    st

/- ### Front-end models (embedded from the source scripts) -/

/-- Body of a POST to the update-from-gcs endpoint. -/
structure UpdateRequest where
  gsUri : List Nat
  dryRun : Bool
deriving DecidableEq

/-- The request body the simulate handler sends: dry_run hardcoded true. -/
def simulateBody (gsUri : List Nat) : UpdateRequest := ⟨gsUri, true⟩

/-- Code points of the gs scheme marker. -/
def gsScheme : List Nat := [103, 115, 58, 47, 47]

/-- Whether a text starts with the five code points of the gs scheme,
as the startsWith test in the simulate handler. -/
def startsWithGs : List Nat → Bool
  | 103 :: 115 :: 58 :: 47 :: 47 :: _ => true
  | _ => false

/-- The gs_uri the simulate handler builds from the GCS-URI tab input:
trim, keep unchanged when it already carries the scheme, else prepend it. -/
def buildGsUri (input : List Nat) : List Nat :=
  let v := trimCodes input
  if startsWithGs v then v else gsScheme ++ v

/-- The request the apply handler issues, as a function of the stored
last-simulated URI and the confirmation dialog outcome; `none` means no
network request is made. -/
def applyRequest (lastSimulatedGsUri : List Nat) (confirmed : Bool) :
    Option UpdateRequest :=
  if lastSimulatedGsUri = [] then none
  else if confirmed then some ⟨lastSimulatedGsUri, false⟩
  else none

/-- Front-end events touching the stored last-simulated URI. -/
inductive UiEvent
  | simulate (uri : List Nat) (ok : Bool)
  | clearSim

/-- One event's effect on the stored last-simulated URI: a successful
simulation stores its URI, clearing results resets it. -/
def stepUri (s : List Nat) : UiEvent → List Nat
  | .simulate uri ok => if ok then uri else s
  | .clearSim => []

/-- The stored last-simulated URI after a sequence of events (initially
empty). -/
def uriAfter (events : List UiEvent) : List Nat :=
  events.foldl stepUri []

/-- Scan a reversed event list for the most recent successful simulation,
stopping at a clear. -/
def lastOkSimAux : List UiEvent → List Nat
  | [] => []
  | .simulate uri true :: _ => uri
  | .simulate _ false :: rest => lastOkSimAux rest
  | .clearSim :: _ => []

/-- The URI of the most recent successful simulation not followed by a
clear, empty if there is none. -/
def lastOkSim (events : List UiEvent) : List Nat :=
  lastOkSimAux events.reverse

/-- The new-stock cell value the results table displays, embedding the
JavaScript or-zero fallback on the new_stock field. -/
def renderedNewStock (q : ℚ) : ℚ := if q = 0 then 0 else q

/-- Whether the table marks the cell with the negative-stock style. -/
def negStockFlag (q : ℚ) : Bool := q < 0

/- ### Helper lemmas on the pipeline -/

theorem stepRow_inr_fields {ctx : Ctx} {i : Nat} {r : SalesRow}
    {u : StockUpdateRecord} (h : stepRow ctx i r = .inr u) :
    u.adjustment = -u.unitsSold ∧ u.newStock = u.currentStock + u.adjustment ∧
      u.status = .simulated := by
  unfold stepRow at h
  cases hw : resolve ctx.aliases r.terminal with
  | none => rw [hw] at h; simp at h
  | some wh =>
    rw [hw] at h
    cases hp : ctx.catalog.lookup r.sku with
    | none => rw [hp] at h; simp at h
    | some p =>
      rw [hp] at h
      cases hu : parseUnits r.unitsRaw with
      | none => rw [hu] at h; simp at h
      | some units =>
        rw [hu] at h
        simp only [Sum.inr.injEq] at h
        subst h
        exact ⟨rfl, rfl, rfl⟩

theorem updates_invariant (ctx : Ctx) :
    ∀ (rows : List (Nat × SalesRow)) (u : StockUpdateRecord),
      u ∈ (processRows ctx rows).updates →
        u.adjustment = -u.unitsSold ∧
        u.newStock = u.currentStock + u.adjustment ∧
        u.status = .simulated := by
  intro rows
  induction rows with
  | nil => intro u hu; simp [processRows] at hu
  | cons p rest ih =>
    intro u hu
    obtain ⟨i, r⟩ := p
    rw [processRows] at hu
    by_cases hs : skipRow r
    · rw [if_pos hs] at hu
      exact ih u hu
    · rw [if_neg hs] at hu
      cases hst : stepRow ctx i r with
      | inl e =>
        rw [hst] at hu
        exact ih u hu
      | inr v =>
        rw [hst] at hu
        rcases List.mem_cons.mp hu with h1 | h2
        · subst h1; exact stepRow_inr_fields hst
        · exact ih u h2

/- ### Concrete data for the scenario witnesses -/

/-- The demo warehouse of scenario B. -/
def whCaceres : WarehouseRef := ⟨toCodes "wh1", toCodes "TIENDA CACERES"⟩

/-- A one-entry alias table keyed by the normalized terminal name. -/
def demoAliases : List (List Nat × WarehouseRef) :=
  [(toCodes "tienda caceres", whCaceres)]

/-- The demo product of scenario B. -/
def demoProd : ProductRef :=
  ⟨toCodes "p1", toCodes "Producto Ejemplo", false, none⟩

/-- A one-entry catalog snapshot keyed by SKU. -/
def demoCatalog : List (List Nat × ProductRef) := [(toCodes "SKU-123", demoProd)]

/-- Snapshot context with every stock level at 20 (scenario B). -/
def demoCtx : Ctx := ⟨demoAliases, demoCatalog, fun _ _ => 20⟩

/-- Snapshot context with every stock level at 3 (scenario D). -/
def demoCtxLow : Ctx := ⟨demoAliases, demoCatalog, fun _ _ => 3⟩

/-- Scenario B row: terminal TIENDA CACERES, sku SKU-123, 5 units sold. -/
def demoRow : SalesRow :=
  ⟨toCodes "TIENDA CACERES", toCodes "SKU-123", toCodes "5",
   toCodes "Producto Ejemplo"⟩

/-- A row whose units cell uses a comma as decimal separator. -/
def demoRowFrac : SalesRow :=
  ⟨toCodes "TIENDA CACERES", toCodes "SKU-123", toCodes "2,5",
   toCodes "Producto Ejemplo"⟩

/-- A row whose units cell is not numeric. -/
def demoBadRow : SalesRow :=
  ⟨toCodes "TIENDA CACERES", toCodes "SKU-123", toCodes "abc",
   toCodes "Producto Ejemplo"⟩

/-- The record scenario B produces: adjustment -5, new stock 15. -/
def demoUpd : StockUpdateRecord :=
  ⟨0, toCodes "SKU-123", toCodes "Producto Ejemplo", toCodes "p1", none,
   toCodes "wh1", toCodes "TIENDA CACERES", 5, 20, -5, 15, .simulated⟩

/-- The record the fractional row produces: 2.5 units, new stock 17.5. -/
def demoUpdFrac : StockUpdateRecord :=
  ⟨0, toCodes "SKU-123", toCodes "Producto Ejemplo", toCodes "p1", none,
   toCodes "wh1", toCodes "TIENDA CACERES", 5/2, 20, -(5/2), 35/2, .simulated⟩

/-- The record scenario D produces: 5 units sold against stock 3. -/
def demoUpdNeg : StockUpdateRecord :=
  ⟨0, toCodes "SKU-123", toCodes "Producto Ejemplo", toCodes "p1", none,
   toCodes "wh1", toCodes "TIENDA CACERES", 5, 3, -5, -2, .simulated⟩

/-- A concrete gs URI for the apply-handler witness. -/
def demoUri : List Nat := toCodes "gs://bucket/ventas.csv"

theorem demoUpd_mem :
    (processRows demoCtx [(0, demoRow)]).updates = [demoUpd] := by
  with_unfolding_all rfl

theorem demoUpdFrac_mem :
    (processRows demoCtx [(0, demoRowFrac)]).updates = [demoUpdFrac] := by
  with_unfolding_all rfl

theorem demoUpdNeg_mem :
    (processRows demoCtxLow [(0, demoRow)]).updates = [demoUpdNeg] := by
  with_unfolding_all rfl

/- ### Claim theorems -/

/-- C1: for every completed reconciliation run, the processed counter equals
the number of update records plus the number of row errors; blank rows are
skipped before the count is taken. -/
theorem claim1_processed_count (ctx : Ctx) (rows : List (Nat × SalesRow)) :
    (processRows ctx rows).processed =
      (processRows ctx rows).updates.length +
        (processRows ctx rows).errors.length := by
  induction rows with
  | nil => rfl
  | cons p rest ih =>
    obtain ⟨i, r⟩ := p
    rw [processRows]
    by_cases hs : skipRow r
    · rw [if_pos hs]; exact ih
    · rw [if_neg hs]
      cases hst : stepRow ctx i r with
      | inl e => simp only [List.length_cons]; omega
      | inr u => simp only [List.length_cons]; omega

/-- C2: every StockUpdateRecord the pipeline produces satisfies
adjustment = -units_sold and new_stock = current_stock + adjustment, for
any current stock and any (possibly fractional) units sold. -/
theorem claim2_delta (ctx : Ctx) (rows : List (Nat × SalesRow))
    (u : StockUpdateRecord) (h : u ∈ (processRows ctx rows).updates) :
    u.adjustment = -u.unitsSold ∧ u.newStock = u.currentStock + u.adjustment :=
  ⟨(updates_invariant ctx rows u h).1, (updates_invariant ctx rows u h).2.1⟩

/-- C2 witness: the comma-decimal row of scenario B with units 2.5 produces
a record that satisfies both delta equations. -/
theorem claim2_delta_witness :
    demoUpdFrac ∈ (processRows demoCtx [(0, demoRowFrac)]).updates ∧
      demoUpdFrac.adjustment = -demoUpdFrac.unitsSold ∧
      demoUpdFrac.newStock = demoUpdFrac.currentStock + demoUpdFrac.adjustment :=
  ⟨demoUpdFrac_mem ▸ List.mem_singleton.mpr rfl,
   claim2_delta demoCtx [(0, demoRowFrac)] demoUpdFrac
     (demoUpdFrac_mem ▸ List.mem_singleton.mpr rfl)⟩

/-- C3: with dry_run true (the default) the applier issues no write call and
passes every record through untouched, so the external stock state is
unchanged; every record the pipeline produces carries status simulated; and
the front-end simulate handler always sends dry_run = true. -/
theorem claim3_dry_run_frame :
    (∀ g : List Nat, (simulateBody g).dryRun = true) ∧
    (∀ (outcome : WriteCall → Bool) (recs : List StockUpdateRecord),
        applyUpdates true outcome recs = (recs, [], [])) ∧
    (∀ st : List Nat → List Nat → ℚ, stockAfter [] st = st) ∧
    (∀ (ctx : Ctx) (rows : List (Nat × SalesRow)) (u : StockUpdateRecord),
        u ∈ (processRows ctx rows).updates → u.status = .simulated) := by
  refine ⟨fun _ => rfl, ?_, fun _ => rfl, ?_⟩
  · intro outcome recs
    induction recs with
    | nil => rfl
    | cons u rest ih => rw [applyUpdates, ih]; rfl
  · intro ctx rows u h
    exact (updates_invariant ctx rows u h).2.2

/-- C3 witness: the scenario B record is produced with status simulated and
the dry-run applier returns it untouched with no write call. -/
theorem claim3_dry_run_frame_witness :
    demoUpd ∈ (processRows demoCtx [(0, demoRow)]).updates ∧
      demoUpd.status = .simulated ∧
      applyUpdates true (fun _ => true) [demoUpd] = ([demoUpd], [], []) :=
  ⟨demoUpd_mem ▸ List.mem_singleton.mpr rfl,
   claim3_dry_run_frame.2.2.2 demoCtx [(0, demoRow)] demoUpd
     (demoUpd_mem ▸ List.mem_singleton.mpr rfl),
   claim3_dry_run_frame.2.1 (fun _ => true) [demoUpd]⟩

/-- C4: a single row's failure never aborts the run — the result of a run is
the rowwise combination of independent per-row outcomes, every per-row
failure is captured as a RowError value of one of the enumerated kinds, and
only the run-level UpstreamUnavailable condition fails a whole run; in a
real run the apply loop likewise combines independent per-record outcomes,
a failed write being captured as an ApplyFailed RowError entry while every
remaining record is still processed. -/
theorem claim4_row_independence :
    (∀ (ctx : Ctx) (l₁ l₂ : List (Nat × SalesRow)),
        processRows ctx (l₁ ++ l₂) =
          ⟨(processRows ctx l₁).processed + (processRows ctx l₂).processed,
           (processRows ctx l₁).updated + (processRows ctx l₂).updated,
           (processRows ctx l₁).updates ++ (processRows ctx l₂).updates,
           (processRows ctx l₁).errors ++ (processRows ctx l₂).errors⟩) ∧
    (∀ (ctx : Ctx) (i : Nat) (r : SalesRow), skipRow r = false →
        (∃ e, stepRow ctx i r = .inl e ∧
            (e.error = .WarehouseNotFound ∨ e.error = .SkuNotFound ∨
              e.error = .InvalidQuantity)) ∨
          (∃ u, stepRow ctx i r = .inr u)) ∧
    (∀ cat wh stock rows,
        runRecon (some cat) (some wh) stock rows =
          .ok (processRows ⟨wh, cat, stock⟩ rows.enum)) ∧
    (∀ catSnap whSnap stock rows,
        runRecon catSnap whSnap stock rows = .error .UpstreamUnavailable ↔
          catSnap = none ∨ whSnap = none) ∧
    (∀ (outcome : WriteCall → Bool) (l₁ l₂ : List StockUpdateRecord),
        applyUpdates false outcome (l₁ ++ l₂) =
          ((applyUpdates false outcome l₁).1 ++ (applyUpdates false outcome l₂).1,
           (applyUpdates false outcome l₁).2.1 ++
             (applyUpdates false outcome l₂).2.1,
           (applyUpdates false outcome l₁).2.2 ++
             (applyUpdates false outcome l₂).2.2)) ∧
    (∀ (outcome : WriteCall → Bool) (u : StockUpdateRecord)
        (rest : List StockUpdateRecord),
        (outcome (mkWriteCall u) = true ∧
          applyUpdates false outcome (u :: rest) =
            ({ u with status := .applied } :: (applyUpdates false outcome rest).1,
             (applyUpdates false outcome rest).2.1,
             mkWriteCall u :: (applyUpdates false outcome rest).2.2)) ∨
        (outcome (mkWriteCall u) = false ∧
          (applyFailedErr u).error = .ApplyFailed ∧
          applyUpdates false outcome (u :: rest) =
            ((applyUpdates false outcome rest).1,
             applyFailedErr u :: (applyUpdates false outcome rest).2.1,
             mkWriteCall u :: (applyUpdates false outcome rest).2.2))) := by
  refine ⟨?_, ?_, fun _ _ _ _ => rfl, ?_, ?_, ?_⟩
  · intro ctx l₁ l₂
    induction l₁ with
    | nil => simp [processRows]
    | cons p rest ih =>
      obtain ⟨i, r⟩ := p
      rw [List.cons_append, processRows, processRows, ih]
      by_cases hs : skipRow r
      · rw [if_pos hs, if_pos hs]
      · rw [if_neg hs, if_neg hs]
        cases hst : stepRow ctx i r with
        | inl e => simp; omega
        | inr u => simp; omega
  · intro ctx i r _
    unfold stepRow
    cases hw : resolve ctx.aliases r.terminal with
    | none => exact Or.inl ⟨rowErr i r .WarehouseNotFound, rfl, Or.inl rfl⟩
    | some wh =>
      cases hp : ctx.catalog.lookup r.sku with
      | none => exact Or.inl ⟨rowErr i r .SkuNotFound, rfl, Or.inr (Or.inl rfl)⟩
      | some p =>
        cases hu : parseUnits r.unitsRaw with
        | none =>
          exact Or.inl ⟨rowErr i r .InvalidQuantity, rfl, Or.inr (Or.inr rfl)⟩
        | some units => exact Or.inr ⟨_, rfl⟩
  · intro catSnap whSnap stock rows
    cases catSnap <;> cases whSnap <;> simp [runRecon]
  · intro outcome l₁ l₂
    induction l₁ with
    | nil => simp [applyUpdates]
    | cons u rest ih =>
      rw [List.cons_append, applyUpdates, applyUpdates, ih]
      by_cases ho : outcome (mkWriteCall u) = true
      · simp [ho]
      · simp [ho]
  · intro outcome u rest
    by_cases ho : outcome (mkWriteCall u) = true
    · refine Or.inl ⟨ho, ?_⟩
      rw [applyUpdates]
      simp [ho]
    · refine Or.inr ⟨by simpa using ho, rfl, ?_⟩
      rw [applyUpdates]
      simp [ho]

/-- C4 witness: the scenario B row is not skipped and yields exactly one
outcome; and a real-run write failure on the scenario B record is captured
as an ApplyFailed error entry while no record is silently dropped. -/
theorem claim4_row_independence_witness :
    skipRow demoRow = false ∧
      ((∃ e, stepRow demoCtx 0 demoRow = .inl e ∧
          (e.error = .WarehouseNotFound ∨ e.error = .SkuNotFound ∨
            e.error = .InvalidQuantity)) ∨
        (∃ u, stepRow demoCtx 0 demoRow = .inr u)) ∧
      (applyFailedErr demoUpd).error = .ApplyFailed ∧
      applyUpdates false (fun _ => false) [demoUpd] =
        ([], [applyFailedErr demoUpd], [mkWriteCall demoUpd]) := by
  refine ⟨by decide, claim4_row_independence.2.1 demoCtx 0 demoRow (by decide),
    ?_, ?_⟩
  · rcases claim4_row_independence.2.2.2.2.2 (fun _ => false) demoUpd []
      with ⟨hc, _⟩ | ⟨_, h2, _⟩
    · cases hc
    · exact h2
  · rcases claim4_row_independence.2.2.2.2.2 (fun _ => false) demoUpd []
      with ⟨hc, _⟩ | ⟨_, _, h3⟩
    · cases hc
    · rw [h3]; rfl

/-- C5: when units sold exceed the current stock the produced record's new
stock is negative and the record is still returned with its status set; the
results table displays the new-stock value unaltered (never clamped), with
the negative-stock style exactly when it is negative. -/
theorem claim5_oversold :
    (∀ (ctx : Ctx) (rows : List (Nat × SalesRow)) (u : StockUpdateRecord),
        u ∈ (processRows ctx rows).updates →
        u.currentStock < u.unitsSold →
          u.newStock < 0 ∧ u.status = .simulated) ∧
    (∀ q : ℚ, renderedNewStock q = q) ∧
    (∀ q : ℚ, negStockFlag q = true ↔ q < 0) := by
  refine ⟨?_, ?_, ?_⟩
  · intro ctx rows u h hlt
    obtain ⟨h1, h2, h3⟩ := updates_invariant ctx rows u h
    refine ⟨?_, h3⟩
    rw [h2, h1]
    linarith
  · intro q
    unfold renderedNewStock
    by_cases h : q = 0
    · rw [if_pos h, h]
    · rw [if_neg h]
  · intro q
    unfold negStockFlag
    simp

/-- C5 witness: scenario D — current stock 3, units sold 5 — produces a
record with new stock -2, still returned, status simulated. -/
theorem claim5_oversold_witness :
    demoUpdNeg ∈ (processRows demoCtxLow [(0, demoRow)]).updates ∧
      demoUpdNeg.currentStock < demoUpdNeg.unitsSold ∧
      demoUpdNeg.newStock < 0 ∧ demoUpdNeg.status = .simulated :=
  ⟨demoUpdNeg_mem ▸ List.mem_singleton.mpr rfl,
   by with_unfolding_all decide,
   claim5_oversold.1 demoCtxLow [(0, demoRow)] demoUpdNeg
     (demoUpdNeg_mem ▸ List.mem_singleton.mpr rfl)
     (by with_unfolding_all decide)⟩

/-- C6: a units cell with comma as decimal separator is parsed exactly as
its dot-normalized form, and a cell that stays unparseable yields a
RowError of kind InvalidQuantity from the row step instead of a crash. -/
theorem claim6_quantity :
    (∀ l : List Nat, parseUnits (l.map commaToDot) = parseUnits l) ∧
    (∀ (ctx : Ctx) (i : Nat) (r : SalesRow) (wh : WarehouseRef)
        (p : ProductRef),
        resolve ctx.aliases r.terminal = some wh →
        ctx.catalog.lookup r.sku = some p →
        parseUnits r.unitsRaw = none →
        stepRow ctx i r =
          .inl ⟨i, r.sku, r.productLabel, r.terminal, none, .InvalidQuantity⟩) := by
  constructor
  · intro l
    unfold parseUnits
    rw [trimCodes_map_commaToDot, map_commaToDot_idem]
  · intro ctx i r wh p hw hp hu
    unfold stepRow
    rw [hw, hp, hu]
    unfold rowErr
    rw [hu]

/-- C6 witness: the comma cell 2,5 parses as the dotted cell does, and the
non-numeric cell abc turns the scenario row into an InvalidQuantity error. -/
theorem claim6_quantity_witness :
    parseUnits (toCodes "2,5") = parseUnits (toCodes "2.5") ∧
      parseUnits (toCodes "abc") = none ∧
      stepRow demoCtx 0 demoBadRow =
        .inl ⟨0, demoBadRow.sku, demoBadRow.productLabel, demoBadRow.terminal,
              none, .InvalidQuantity⟩ :=
  ⟨by with_unfolding_all rfl, by decide,
   claim6_quantity.2 demoCtx 0 demoBadRow whCaceres demoProd (by decide)
     (by decide) (by decide)⟩

/-- C7: the Name Normalizer is idempotent — normalizing an already
normalized text changes nothing. -/
theorem claim7_normalize_idem (l : List Nat) :
    normalize (normalize l) = normalize l := by
  have h1 := map_foldCode_normalize l
  show joinWords (textWords ((normalize l).map foldCode)) = normalize l
  rw [h1]
  have hspec := wordsAux_spec (l.map foldCode) [] (by simp)
  exact congrArg joinWords (words_joinWords _ hspec)

/-- The upper-case spelling of the Cáceres terminal alias. -/
def aliasUpper : List Nat := toCodes "TIENDA CACERES"

/-- The accented spelling of the Cáceres terminal alias. -/
def aliasAccent : List Nat := toCodes "Tienda Cáceres"

/-- The plain lower-case spelling of the Cáceres terminal alias. -/
def aliasLower : List Nat := toCodes "tienda caceres"

/-- C8: the resolver normalizes before the alias lookup, so the three
spellings of the Cáceres terminal resolve identically under every alias
table, and a name whose normalized key has no entry resolves to none
(Unresolved), never an exception. -/
theorem claim8_resolver :
    (∀ table : List (List Nat × WarehouseRef),
        resolve table aliasUpper = resolve table aliasLower ∧
        resolve table aliasAccent = resolve table aliasLower) ∧
    (∀ (table : List (List Nat × WarehouseRef)) (name : List Nat),
        table.lookup (normalize name) = none → resolve table name = none) := by
  constructor
  · intro table
    have h1 : normalize aliasUpper = normalize aliasLower := by decide
    have h2 : normalize aliasAccent = normalize aliasLower := by decide
    exact ⟨by unfold resolve; rw [h1], by unfold resolve; rw [h2]⟩
  · intro table name h
    unfold resolve
    exact h

/-- C8 witness: under the demo alias table all three spellings resolve to
the Cáceres warehouse, and an unknown terminal name resolves to none. -/
theorem claim8_resolver_witness :
    (resolve demoAliases aliasUpper = resolve demoAliases aliasLower ∧
      resolve demoAliases aliasAccent = resolve demoAliases aliasLower) ∧
      resolve demoAliases (toCodes "tienda desconocida") = none :=
  ⟨claim8_resolver.1 demoAliases,
   claim8_resolver.2 demoAliases (toCodes "tienda desconocida") (by decide)⟩

/-- C9: for a non-empty trimmed GCS-URI input the simulate handler sends a
URI carrying the gs scheme: kept unchanged when already present, prepended
otherwise. -/
theorem claim9_gs_uri (input : List Nat) (_h : trimCodes input ≠ []) :
    startsWithGs (buildGsUri input) = true ∧
    (startsWithGs (trimCodes input) = true → buildGsUri input = trimCodes input) ∧
    (startsWithGs (trimCodes input) = false →
        buildGsUri input = gsScheme ++ trimCodes input) := by
  have hb : buildGsUri input =
      if startsWithGs (trimCodes input) then trimCodes input
      else gsScheme ++ trimCodes input := rfl
  by_cases hs : startsWithGs (trimCodes input) = true
  · rw [hb, if_pos hs]
    exact ⟨hs, fun _ => rfl, fun hc => by rw [hs] at hc; cases hc⟩
  · rw [Bool.not_eq_true] at hs
    rw [hb, if_neg (by rw [hs]; exact Bool.false_ne_true)]
    refine ⟨?_, ?_, fun _ => rfl⟩
    · show startsWithGs (103 :: 115 :: 58 :: 47 :: 47 :: trimCodes input) = true
      rfl
    · intro hc
      rw [hs] at hc
      cases hc

/-- C9 witness: the scheme-free input bucket/archivo.csv gets the gs scheme
prepended and the result carries the scheme. -/
theorem claim9_gs_uri_witness :
    trimCodes (toCodes "bucket/archivo.csv") ≠ [] ∧
      startsWithGs (buildGsUri (toCodes "bucket/archivo.csv")) = true ∧
      buildGsUri (toCodes "bucket/archivo.csv") =
        gsScheme ++ trimCodes (toCodes "bucket/archivo.csv") :=
  ⟨by decide,
   (claim9_gs_uri (toCodes "bucket/archivo.csv") (by decide)).1,
   (claim9_gs_uri (toCodes "bucket/archivo.csv") (by decide)).2.2 (by decide)⟩

/-- C10: the apply handler issues no request while the stored URI is empty
(initially or after clearing); whenever it issues one, the body carries
dry_run = false and the stored URI; and the stored URI always equals the
URI of the most recent successful simulation, reset by clearing. -/
theorem claim10_apply_request :
    (∀ c : Bool, applyRequest [] c = none) ∧
    (∀ (last : List Nat) (c : Bool) (r : UpdateRequest),
        applyRequest last c = some r → r.dryRun = false ∧ r.gsUri = last) ∧
    (∀ events : List UiEvent, uriAfter events = lastOkSim events) := by
  refine ⟨fun _ => rfl, ?_, ?_⟩
  · intro last c r h
    unfold applyRequest at h
    by_cases h1 : last = []
    · rw [if_pos h1] at h; cases h
    · rw [if_neg h1] at h
      by_cases h2 : c = true
      · rw [if_pos h2] at h
        simp only [Option.some.injEq] at h
        subst h
        exact ⟨rfl, rfl⟩
      · rw [if_neg h2] at h; cases h
  · intro events
    induction events using List.reverseRecOn with
    | nil => rfl
    | append_singleton es e ih =>
      show List.foldl stepUri [] (es ++ [e]) = lastOkSim (es ++ [e])
      rw [List.foldl_append]
      unfold lastOkSim
      rw [List.reverse_append]
      simp only [List.reverse_singleton, List.singleton_append, List.foldl_cons,
        List.foldl_nil]
      have ihr : List.foldl stepUri [] es = lastOkSimAux es.reverse := ih
      cases e with
      | simulate uri ok =>
        cases ok
        · simp [stepUri, lastOkSimAux, ihr]
        · simp [stepUri, lastOkSimAux]
      | clearSim => simp [stepUri, lastOkSimAux]

/-- C10 witness: with the stored URI empty no request is issued; with a
stored URI and a confirmed dialog the issued body carries dry_run false and
that URI; and after a successful simulation the stored URI is its URI. -/
theorem claim10_apply_request_witness :
    applyRequest [] true = none ∧
      applyRequest demoUri true = some ⟨demoUri, false⟩ ∧
      ((⟨demoUri, false⟩ : UpdateRequest).dryRun = false ∧
        (⟨demoUri, false⟩ : UpdateRequest).gsUri = demoUri) ∧
      uriAfter [.simulate demoUri true] = lastOkSim [.simulate demoUri true] :=
  ⟨claim10_apply_request.1 true, by decide,
   claim10_apply_request.2.1 demoUri true ⟨demoUri, false⟩ (by decide),
   claim10_apply_request.2.2 [.simulate demoUri true]⟩

end StockRecon
